import Mathlib

/-!
Verification of the miles router specification.

The repository's router (`miles/router/router.py`, class `MilesRouter`) is a
load-balancing reverse proxy over a pool of inference workers.  Only its test
suite (`tests/router/test_router.py`) ships in the sources at hand, so the
registry, load balancer, health bookkeeping and administrative API below are
modelled from the specification's own description (sections 3, 4.1, 4.2, 4.3,
4.5, 6 of the spec).  Machine integers are modelled as unbounded `Int`/`Nat`,
matching Python integers.
-/

namespace MilesRouter

/-- Worker endpoints are URLs, modelled as plain strings. -/
abbrev Endpoint := String

/-- Modelled from the spec: per-worker state of `MilesRouter` (not under src).
`inFlight` is the worker's entry in `worker_request_counts`,
`consecutiveFailures` its entry in `worker_failure_counts`, and `isDead`
membership in the `dead_workers` set. -/
structure Worker where
  inFlight : Int
  consecutiveFailures : Nat
  isDead : Bool
deriving Repr, DecidableEq

/-- A freshly registered worker: zero counters, live. -/
def Worker.fresh : Worker := { inFlight := 0, consecutiveFailures := 0, isDead := false }

/-- Modelled from the spec: the registry is an insertion-ordered mapping from
endpoint to worker state (a Python dict); keys are unique in reachable states. -/
abbrev Registry := List (Endpoint × Worker)

/-- Error kinds of the router (spec section 7). -/
inductive RouterError where
  | noHealthyWorkers
  | unknownWorker
  | notFound
deriving Repr, DecidableEq

/-- First binding of an endpoint in the registry, as a Python dict lookup. -/
def lookupWorker (s : Registry) (ep : Endpoint) : Option Worker :=
  match s with
  | [] => none
  | (e, w) :: rest => if e = ep then some w else lookupWorker rest ep

/-- Update the (first) binding of an endpoint in place, leaving order intact. -/
def updateWorker (s : Registry) (ep : Endpoint) (f : Worker → Worker) : Registry :=
  match s with
  | [] => []
  | (e, w) :: rest =>
      if e = ep then (e, f w) :: rest else (e, w) :: updateWorker rest ep f

/-- Remove the (first) binding of an endpoint. -/
def removeWorker (s : Registry) (ep : Endpoint) : Registry :=
  match s with
  | [] => []
  | (e, w) :: rest => if e = ep then rest else (e, w) :: removeWorker rest ep

/-- Modelled from the spec: `register(endpoint)` — idempotent, adds the
endpoint with zero counters if unknown, no-op if already known. -/
def registerWorker (s : Registry) (ep : Endpoint) : Registry :=
  if (lookupWorker s ep).isSome then s else s ++ [(ep, Worker.fresh)]

/-- Modelled from the spec: `deregister(endpoint)` — removes the endpoint,
fails with `NotFoundError` if unknown. -/
def deregisterWorker (s : Registry) (ep : Endpoint) : Except RouterError Registry :=
  if (lookupWorker s ep).isSome then .ok (removeWorker s ep) else .error .notFound

/-- Modelled from the spec: `list()` — snapshot of all known endpoints. -/
def listWorkers (s : Registry) : List Endpoint := s.map Prod.fst

/-- Live (non-dead) entries of the registry, in registry order. -/
def liveEntries (s : Registry) : Registry := s.filter (fun p => !p.2.isDead)

/-- Modelled from the spec: the least-connections choice — the entry with the
smallest `inFlight`, ties broken by the registry's stable endpoint order
(the earliest minimal entry wins, as Python `min` over dict iteration). -/
def pickMin : Registry → Option (Endpoint × Worker)
  | [] => none
  | e :: rest =>
      match pickMin rest with
      | none => some e
      | some m => if m.2.inFlight < e.2.inFlight then some m else some e

/-- Modelled from the spec: `_use_url` — select the live endpoint with the
smallest in-flight count and reserve capacity by incrementing its counter in
the same step; fails with `NoHealthyWorkersError` when no live worker exists,
mutating nothing. -/
def useUrl (s : Registry) : Except RouterError Endpoint × Registry :=
  match pickMin (liveEntries s) with
  | none => (.error .noHealthyWorkers, s)
  | some (ep, _) => (.ok ep, updateWorker s ep (fun w => { w with inFlight := w.inFlight + 1 }))

/-- Modelled from the spec: `_finish_url` / `mark_completed` — decrement the
endpoint's in-flight count; an unknown endpoint is a consistency error
(`UnknownWorkerError`), surfaced loudly. -/
def finishUrl (s : Registry) (ep : Endpoint) : Except RouterError Registry :=
  match lookupWorker s ep with
  | none => .error .unknownWorker
  | some _ => .ok (updateWorker s ep (fun w => { w with inFlight := w.inFlight - 1 }))

/-- Modelled from the spec: `record_probe_result` on one worker — success
resets `consecutive_failures` to 0 and marks the worker live; failure
increments the counter and marks the worker dead once it reaches the
configured threshold `t`. -/
def recordProbe (t : Nat) (success : Bool) (w : Worker) : Worker :=
  if success then
    { w with consecutiveFailures := 0, isDead := false }
  else
    let f := w.consecutiveFailures + 1
    { w with consecutiveFailures := f, isDead := w.isDead || decide (t ≤ f) }

/-- State of a fresh worker after `k` consecutive failed probes at threshold `t`. -/
def failN (t : Nat) : Nat → Worker
  | 0 => Worker.fresh
  | k + 1 => recordProbe t false (failN t k)

/-- Shape of an HTTP response of the administrative API, as far as the spec
constrains it: status code, optional `status` field, optional `error` field. -/
structure HttpResponse where
  code : Nat
  status : Option String
  error : Option String
deriving Repr, DecidableEq

/-- Modelled from the spec: `POST /add_worker` — the endpoint may arrive via
the query parameter `url` or via the JSON body's `url` field; with an
endpoint it registers it and answers 200 with status success, without one it
answers 400 with an error field and registers nothing. -/
def addWorker (queryUrl bodyUrl : Option Endpoint) (s : Registry) : HttpResponse × Registry :=
  match queryUrl <|> bodyUrl with
  | some u => ({ code := 200, status := some "success", error := none }, registerWorker s u)
  | none => ({ code := 400, status := none, error := some "Missing url parameter" }, s)

/-- Administrative operations driving the registry (spec sections 4.1, 4.5). -/
inductive AdminOp where
  | register (ep : Endpoint)
  | deregister (ep : Endpoint)
deriving Repr, DecidableEq

/-- Apply one administrative operation; a failing deregistration (unknown
endpoint) is reported to the caller and leaves the registry unchanged. -/
def applyOp (s : Registry) : AdminOp → Registry
  | .register ep => registerWorker s ep
  | .deregister ep =>
      match deregisterWorker s ep with
      | .ok s' => s'
      | .error _ => s

/-- Registry reached from the empty registry by a sequence of admin calls. -/
def applyOps (ops : List AdminOp) : Registry := ops.foldl applyOp []

/-- Whether, after the given call sequence, the endpoint has been registered
and not subsequently deregistered. -/
def statusStep (ep : Endpoint) (b : Bool) : AdminOp → Bool
  | .register e => if e = ep then true else b
  | .deregister e => if e = ep then false else b

/-- Final registered/unregistered status of an endpoint after a call sequence. -/
def finalStatus (ops : List AdminOp) (ep : Endpoint) : Bool :=
  ops.foldl (statusStep ep) false

/-- Registry invariant: endpoint keys are unique. -/
abbrev keysNodup (s : Registry) : Prop := (s.map Prod.fst).Nodup

/-- Concrete pool used by the load-balancing tests: three live workers with
in-flight counts 5, 2 and 8. -/
def poolA : Registry :=
  [("http://w1:8000", { inFlight := 5, consecutiveFailures := 0, isDead := false }),
   ("http://w2:8000", { inFlight := 2, consecutiveFailures := 0, isDead := false }),
   ("http://w3:8000", { inFlight := 8, consecutiveFailures := 0, isDead := false })]

/-- Concrete pool in which the only registered worker is dead. -/
def poolDead : Registry :=
  [("http://w1:8000", { inFlight := 0, consecutiveFailures := 0, isDead := true })]

/-- Concrete pool with a single live worker carrying 5 in-flight requests. -/
def poolB : Registry :=
  [("http://w1:8000", { inFlight := 5, consecutiveFailures := 0, isDead := false })]

/-- Concrete pool with counts 5, 2, 8 in which w2 is marked dead. -/
def poolC : Registry :=
  [("http://w1:8000", { inFlight := 5, consecutiveFailures := 0, isDead := false }),
   ("http://w2:8000", { inFlight := 2, consecutiveFailures := 0, isDead := true }),
   ("http://w3:8000", { inFlight := 8, consecutiveFailures := 0, isDead := false })]

/-! ## Basic lemmas about registry lookups and updates -/

theorem lookupWorker_update_self (s : Registry) (ep : Endpoint) (f : Worker → Worker) :
    lookupWorker (updateWorker s ep f) ep = (lookupWorker s ep).map f := by
  induction s with
  | nil => rfl
  | cons head rest ih =>
      obtain ⟨e, w⟩ := head
      by_cases he : e = ep
      · simp [updateWorker, lookupWorker, he]
      · simp [updateWorker, lookupWorker, he, ih]

theorem lookupWorker_update_other (s : Registry) (ep e : Endpoint) (f : Worker → Worker)
    (h : e ≠ ep) :
    lookupWorker (updateWorker s ep f) e = lookupWorker s e := by
  induction s with
  | nil => rfl
  | cons head rest ih =>
      obtain ⟨e', w⟩ := head
      by_cases he : e' = ep
      · subst he
        simp [updateWorker, lookupWorker, Ne.symm h]
      · by_cases he2 : e' = e
        · subst he2
          simp [updateWorker, lookupWorker, he]
        · simp [updateWorker, lookupWorker, he, he2, ih]

theorem keys_updateWorker (s : Registry) (ep : Endpoint) (f : Worker → Worker) :
    (updateWorker s ep f).map Prod.fst = s.map Prod.fst := by
  induction s with
  | nil => rfl
  | cons head rest ih =>
      obtain ⟨e, w⟩ := head
      by_cases he : e = ep
      · simp [updateWorker, he]
      · simp [updateWorker, he, ih]

theorem lookupWorker_isSome_iff (s : Registry) (ep : Endpoint) :
    (lookupWorker s ep).isSome = true ↔ ep ∈ s.map Prod.fst := by
  induction s with
  | nil => simp [lookupWorker]
  | cons head rest ih =>
      obtain ⟨e, w⟩ := head
      by_cases he : e = ep
      · simp [lookupWorker, he]
      · have : ¬ ep = e := fun hc => he hc.symm
        simp [lookupWorker, he, ih, this]

theorem lookupWorker_eq_none_of_not_mem (s : Registry) (ep : Endpoint)
    (h : ep ∉ s.map Prod.fst) : lookupWorker s ep = none := by
  cases hl : lookupWorker s ep with
  | none => rfl
  | some w =>
      exact absurd ((lookupWorker_isSome_iff s ep).1 (by simp [hl])) h

theorem lookupWorker_append (s l : Registry) (ep : Endpoint) :
    lookupWorker (s ++ l) ep =
      match lookupWorker s ep with
      | some w => some w
      | none => lookupWorker l ep := by
  induction s with
  | nil => simp [lookupWorker]
  | cons head rest ih =>
      obtain ⟨e, w⟩ := head
      by_cases he : e = ep
      · simp [lookupWorker, he]
      · simp [lookupWorker, he, ih]

theorem lookupWorker_eq_some_of_mem (s : Registry) (ep : Endpoint) (w : Worker)
    (hnd : keysNodup s) (hm : (ep, w) ∈ s) : lookupWorker s ep = some w := by
  induction s with
  | nil => simp at hm
  | cons head rest ih =>
      obtain ⟨e, v⟩ := head
      simp only [keysNodup, List.map_cons, List.nodup_cons] at hnd
      rcases List.mem_cons.1 hm with hhead | htail
      · obtain ⟨he, hw⟩ := Prod.mk.injEq .. ▸ hhead
        simp [lookupWorker, he.symm, hw]
      · by_cases he : e = ep
        · exfalso
          apply hnd.1
          subst he
          exact List.mem_map.2 ⟨(e, w), htail, rfl⟩
        · simpa [lookupWorker, he] using ih hnd.2 htail

/-! ## Lemmas about the least-connections choice -/

theorem pickMin_cons_none (e : Endpoint × Worker) (rest : Registry)
    (hr : pickMin rest = none) : pickMin (e :: rest) = some e := by
  simp only [pickMin, hr]

theorem pickMin_cons_some (e : Endpoint × Worker) (rest : Registry) (m : Endpoint × Worker)
    (hr : pickMin rest = some m) :
    pickMin (e :: rest) = if m.2.inFlight < e.2.inFlight then some m else some e := by
  simp only [pickMin, hr]

theorem pickMin_eq_none (l : Registry) : pickMin l = none ↔ l = [] := by
  cases l with
  | nil => simp [pickMin]
  | cons e rest =>
      cases hr : pickMin rest with
      | none => simp [pickMin_cons_none e rest hr]
      | some m =>
          rw [pickMin_cons_some e rest m hr]
          by_cases hlt : m.2.inFlight < e.2.inFlight
          · simp [hlt]
          · simp [hlt]

theorem pickMin_mem (l : Registry) :
    ∀ p, pickMin l = some p → p ∈ l := by
  induction l with
  | nil =>
      intro p h
      simp [pickMin] at h
  | cons e rest ih =>
      intro p h
      cases hr : pickMin rest with
      | none =>
          rw [pickMin_cons_none e rest hr] at h
          simp only [Option.some.injEq] at h
          simp [h.symm]
      | some m =>
          rw [pickMin_cons_some e rest m hr] at h
          by_cases hlt : m.2.inFlight < e.2.inFlight
          · rw [if_pos hlt] at h
            simp only [Option.some.injEq] at h
            exact List.mem_cons_of_mem e (h ▸ ih m hr)
          · rw [if_neg hlt] at h
            simp only [Option.some.injEq] at h
            simp [h.symm]

theorem pickMin_le (l : Registry) :
    ∀ p, pickMin l = some p → ∀ q ∈ l, p.2.inFlight ≤ q.2.inFlight := by
  induction l with
  | nil =>
      intro p h
      simp [pickMin] at h
  | cons e rest ih =>
      intro p h
      cases hr : pickMin rest with
      | none =>
          rw [pickMin_cons_none e rest hr] at h
          have hrest : rest = [] := (pickMin_eq_none rest).1 hr
          simp only [Option.some.injEq] at h
          subst h
          subst hrest
          intro q hq
          simp at hq
          simp [hq]
      | some m =>
          have hm := ih m hr
          rw [pickMin_cons_some e rest m hr] at h
          by_cases hlt : m.2.inFlight < e.2.inFlight
          · rw [if_pos hlt] at h
            simp only [Option.some.injEq] at h
            subst h
            intro q hq
            rcases List.mem_cons.1 hq with hq | hq
            · subst hq
              omega
            · exact hm q hq
          · rw [if_neg hlt] at h
            simp only [Option.some.injEq] at h
            subst h
            intro q hq
            rcases List.mem_cons.1 hq with hq | hq
            · subst hq
              omega
            · have := hm q hq
              omega

theorem pickMin_first (l : Registry) :
    ∀ p, pickMin l = some p →
      ∃ l1 l2, l = l1 ++ p :: l2 ∧ ∀ q ∈ l1, p.2.inFlight < q.2.inFlight := by
  induction l with
  | nil =>
      intro p h
      simp [pickMin] at h
  | cons e rest ih =>
      intro p h
      cases hr : pickMin rest with
      | none =>
          rw [pickMin_cons_none e rest hr] at h
          simp only [Option.some.injEq] at h
          subst h
          exact ⟨[], rest, rfl, by simp⟩
      | some m =>
          rw [pickMin_cons_some e rest m hr] at h
          by_cases hlt : m.2.inFlight < e.2.inFlight
          · rw [if_pos hlt] at h
            simp only [Option.some.injEq] at h
            subst h
            obtain ⟨l1, l2, heq, hstrict⟩ := ih m hr
            refine ⟨e :: l1, l2, by simp [heq], ?_⟩
            intro q hq
            rcases List.mem_cons.1 hq with hq | hq
            · subst hq
              exact hlt
            · exact hstrict q hq
          · rw [if_neg hlt] at h
            simp only [Option.some.injEq] at h
            subst h
            exact ⟨[], rest, rfl, by simp⟩

theorem mem_liveEntries (s : Registry) (p : Endpoint × Worker) :
    p ∈ liveEntries s ↔ p ∈ s ∧ p.2.isDead = false := by
  simp [liveEntries, List.mem_filter]

theorem liveEntries_eq_nil_of_all_dead (s : Registry) (h : ∀ p ∈ s, p.2.isDead = true) :
    liveEntries s = [] := by
  simp only [liveEntries, List.filter_eq_nil_iff]
  intro p hp
  simp [h p hp]

/-! ## Lemmas about registration, removal and key uniqueness -/

theorem keys_removeWorker_sublist (s : Registry) (ep : Endpoint) :
    List.Sublist ((removeWorker s ep).map Prod.fst) (s.map Prod.fst) := by
  induction s with
  | nil => simp [removeWorker]
  | cons head rest ih =>
      obtain ⟨e, w⟩ := head
      by_cases he : e = ep
      · simp only [removeWorker, he, if_pos, List.map_cons]
        exact List.sublist_cons_self _ _
      · simp only [removeWorker, he, if_neg, List.map_cons]
        exact ih.cons₂ e

theorem keysNodup_removeWorker (s : Registry) (ep : Endpoint) (hnd : keysNodup s) :
    keysNodup (removeWorker s ep) :=
  (keys_removeWorker_sublist s ep).nodup hnd

theorem lookupWorker_remove_self (s : Registry) (ep : Endpoint) (hnd : keysNodup s) :
    lookupWorker (removeWorker s ep) ep = none := by
  induction s with
  | nil => rfl
  | cons head rest ih =>
      obtain ⟨e, w⟩ := head
      simp only [keysNodup, List.map_cons, List.nodup_cons] at hnd
      by_cases he : e = ep
      · simp only [removeWorker, he, if_pos]
        apply lookupWorker_eq_none_of_not_mem
        subst he
        exact hnd.1
      · simp [removeWorker, lookupWorker, he, ih hnd.2]

theorem lookupWorker_remove_other (s : Registry) (ep e : Endpoint) (h : e ≠ ep) :
    lookupWorker (removeWorker s ep) e = lookupWorker s e := by
  induction s with
  | nil => rfl
  | cons head rest ih =>
      obtain ⟨e', w⟩ := head
      by_cases he : e' = ep
      · subst he
        simp [removeWorker, lookupWorker, Ne.symm h]
      · by_cases he2 : e' = e
        · subst he2
          simp [removeWorker, lookupWorker, he]
        · simp [removeWorker, lookupWorker, he, he2, ih]

theorem keysNodup_registerWorker (s : Registry) (ep : Endpoint) (hnd : keysNodup s) :
    keysNodup (registerWorker s ep) := by
  by_cases h : (lookupWorker s ep).isSome = true
  · simpa [registerWorker, h] using hnd
  · have hmem : ep ∉ s.map Prod.fst := by
      intro hc
      exact h ((lookupWorker_isSome_iff s ep).2 hc)
    simp only [registerWorker, h, if_neg, Bool.not_eq_true]
    simp only [keysNodup, List.map_append, List.map_cons, List.map_nil]
    rw [List.nodup_append]
    refine ⟨hnd, List.nodup_singleton ep, ?_⟩
    intro a ha hb
    simp at hb
    subst hb
    exact hmem ha

theorem lookupWorker_register_self_isSome (s : Registry) (ep : Endpoint) :
    (lookupWorker (registerWorker s ep) ep).isSome = true := by
  cases hl : lookupWorker s ep with
  | some w => simp [registerWorker, hl]
  | none =>
      simp only [registerWorker, hl, Option.isSome_none, Bool.false_eq_true, if_false]
      rw [lookupWorker_append s [(ep, Worker.fresh)] ep, hl]
      simp [lookupWorker]

theorem lookupWorker_register_fresh (s : Registry) (ep : Endpoint)
    (hl : lookupWorker s ep = none) :
    lookupWorker (registerWorker s ep) ep = some Worker.fresh := by
  simp only [registerWorker, hl, Option.isSome_none, Bool.false_eq_true, if_false]
  rw [lookupWorker_append s [(ep, Worker.fresh)] ep, hl]
  simp [lookupWorker]

/-! ## Lemmas about admin-call histories -/

theorem keysNodup_applyOp (s : Registry) (op : AdminOp) (hnd : keysNodup s) :
    keysNodup (applyOp s op) := by
  cases op with
  | register e => exact keysNodup_registerWorker s e hnd
  | deregister e =>
      simp only [applyOp, deregisterWorker]
      by_cases hl : (lookupWorker s e).isSome = true
      · simp only [hl, if_pos]
        exact keysNodup_removeWorker s e hnd
      · simp only [hl, if_neg, Bool.not_eq_true]
        exact hnd

theorem lookupWorker_applyOp_isSome (s : Registry) (op : AdminOp) (ep : Endpoint)
    (hnd : keysNodup s) :
    (lookupWorker (applyOp s op) ep).isSome = statusStep ep (lookupWorker s ep).isSome op := by
  cases op with
  | register e =>
      by_cases he : e = ep
      · subst he
        simp only [applyOp, statusStep, if_pos]
        exact lookupWorker_register_self_isSome s e
      · simp only [applyOp, statusStep, if_neg he]
        by_cases hl : (lookupWorker s e).isSome = true
        · simp [registerWorker, hl]
        · have hnone : lookupWorker s e = none := by
            cases hq : lookupWorker s e
            · rfl
            · rw [hq] at hl
              simp at hl
          simp only [registerWorker, hnone, Option.isSome_none, Bool.false_eq_true, if_false]
          rw [lookupWorker_append]
          cases hq : lookupWorker s ep with
          | some w => simp
          | none => simp [lookupWorker, he]
  | deregister e =>
      cases hl : lookupWorker s e with
      | some w =>
          simp only [applyOp, deregisterWorker, hl, Option.isSome_some, if_pos, statusStep]
          by_cases he : e = ep
          · subst he
            rw [lookupWorker_remove_self s e hnd]
            simp
          · rw [lookupWorker_remove_other s e ep (Ne.symm he)]
            simp [he]
      | none =>
          simp only [applyOp, deregisterWorker, hl, Option.isSome_none, Bool.false_eq_true,
            if_false, statusStep]
          by_cases he : e = ep
          · subst he
            simp [hl]
          · simp [he]

theorem foldl_applyOp_status (ops : List AdminOp) :
    ∀ s : Registry, keysNodup s →
      keysNodup (ops.foldl applyOp s) ∧
      ∀ ep, (lookupWorker (ops.foldl applyOp s) ep).isSome =
        ops.foldl (statusStep ep) (lookupWorker s ep).isSome := by
  induction ops with
  | nil =>
      intro s hnd
      exact ⟨hnd, fun ep => rfl⟩
  | cons op ops ih =>
      intro s hnd
      have hnd2 : keysNodup (applyOp s op) := keysNodup_applyOp s op hnd
      obtain ⟨h1, h2⟩ := ih (applyOp s op) hnd2
      refine ⟨h1, fun ep => ?_⟩
      rw [List.foldl_cons, List.foldl_cons, h2 ep, lookupWorker_applyOp_isSome s op ep hnd]

/-! ## Unfolding lemmas for selection -/

theorem useUrl_eq_of_pick (s : Registry) (ep : Endpoint) (w : Worker)
    (h : pickMin (liveEntries s) = some (ep, w)) :
    useUrl s =
      (Except.ok ep, updateWorker s ep (fun v => { v with inFlight := v.inFlight + 1 })) := by
  simp only [useUrl, h]

theorem useUrl_eq_of_no_pick (s : Registry) (h : pickMin (liveEntries s) = none) :
    useUrl s = (Except.error RouterError.noHealthyWorkers, s) := by
  simp only [useUrl, h]

/-! ## Claim theorems -/

/-- C1: whenever at least one registered worker is live, `_use_url` returns a live
endpoint whose in-flight count is smallest among the live workers — ties broken by
the registry's stable endpoint order (the earliest minimal live entry) — and, in
the same operation, increments exactly that endpoint's in-flight count by 1. -/
theorem useUrl_selects_min_live (s : Registry) (hnd : keysNodup s)
    (hlive : ∃ p ∈ s, p.2.isDead = false) :
    ∃ ep w, (useUrl s).1 = Except.ok ep ∧
      lookupWorker s ep = some w ∧ w.isDead = false ∧
      (∀ q ∈ s, q.2.isDead = false → w.inFlight ≤ q.2.inFlight) ∧
      (∃ pre post, liveEntries s = pre ++ (ep, w) :: post ∧
        ∀ q ∈ pre, w.inFlight < q.2.inFlight) ∧
      lookupWorker (useUrl s).2 ep = some { w with inFlight := w.inFlight + 1 } := by
  obtain ⟨p0, hp0, hp0live⟩ := hlive
  have hlive2 : p0 ∈ liveEntries s := (mem_liveEntries s p0).2 ⟨hp0, hp0live⟩
  cases hpick : pickMin (liveEntries s) with
  | none =>
      exfalso
      rw [(pickMin_eq_none _).1 hpick] at hlive2
      simp at hlive2
  | some p =>
      obtain ⟨ep, w⟩ := p
      have hmem : (ep, w) ∈ liveEntries s := pickMin_mem _ _ hpick
      have hmem2 := (mem_liveEntries s (ep, w)).1 hmem
      have hls : lookupWorker s ep = some w :=
        lookupWorker_eq_some_of_mem s ep w hnd hmem2.1
      have huse := useUrl_eq_of_pick s ep w hpick
      refine ⟨ep, w, ?_, hls, hmem2.2, ?_, ?_, ?_⟩
      · rw [huse]
      · intro q hq hqlive
        exact pickMin_le _ _ hpick q ((mem_liveEntries s q).2 ⟨hq, hqlive⟩)
      · exact pickMin_first _ _ hpick
      · rw [huse]
        simp only
        rw [lookupWorker_update_self, hls]
        rfl

/-- Witness for C1: on the pool with counts 5, 2, 8 (all live) selection returns w2
and w2's in-flight count becomes 3. -/
theorem useUrl_selects_min_live_witness :
    (∃ ep w, (useUrl poolA).1 = Except.ok ep ∧
      lookupWorker poolA ep = some w ∧ w.isDead = false ∧
      (∀ q ∈ poolA, q.2.isDead = false → w.inFlight ≤ q.2.inFlight) ∧
      (∃ pre post, liveEntries poolA = pre ++ (ep, w) :: post ∧
        ∀ q ∈ pre, w.inFlight < q.2.inFlight) ∧
      lookupWorker (useUrl poolA).2 ep = some { w with inFlight := w.inFlight + 1 }) ∧
    (useUrl poolA).1 = Except.ok "http://w2:8000" ∧
    lookupWorker (useUrl poolA).2 "http://w2:8000" =
      some { inFlight := 3, consecutiveFailures := 0, isDead := false } :=
  ⟨useUrl_selects_min_live poolA (by decide) (by decide), by rfl, by rfl⟩

/-- C2: when every registered worker is dead — in particular for the empty
registry — `_use_url` fails with the no-healthy-workers error and leaves the
registry, hence every counter, unchanged. -/
theorem useUrl_all_dead_fails (s : Registry) (h : ∀ p ∈ s, p.2.isDead = true) :
    (useUrl s).1 = Except.error RouterError.noHealthyWorkers ∧ (useUrl s).2 = s := by
  have hl : liveEntries s = [] := liveEntries_eq_nil_of_all_dead s h
  have huse := useUrl_eq_of_no_pick s (by rw [hl]; rfl)
  rw [huse]
  exact ⟨rfl, rfl⟩

/-- Witness for C2: an all-dead single-worker pool and the empty registry. -/
theorem useUrl_all_dead_fails_witness :
    ((useUrl poolDead).1 = Except.error RouterError.noHealthyWorkers ∧
      (useUrl poolDead).2 = poolDead) ∧
    ((useUrl []).1 = Except.error RouterError.noHealthyWorkers ∧ (useUrl []).2 = []) :=
  ⟨useUrl_all_dead_fails poolDead (by decide), useUrl_all_dead_fails [] (by decide)⟩

/-- C3: `_finish_url` / `mark_completed` decrements a registered endpoint's
in-flight count by exactly 1, and raises the unknown-worker consistency error for
an endpoint absent from the registry. -/
theorem finishUrl_decrements_or_raises (s : Registry) (ep : Endpoint) :
    (∀ w, lookupWorker s ep = some w →
      ∃ s2, finishUrl s ep = Except.ok s2 ∧
        lookupWorker s2 ep = some { w with inFlight := w.inFlight - 1 }) ∧
    (lookupWorker s ep = none → finishUrl s ep = Except.error RouterError.unknownWorker) := by
  constructor
  · intro w hw
    refine ⟨updateWorker s ep (fun v => { v with inFlight := v.inFlight - 1 }), ?_, ?_⟩
    · simp only [finishUrl, hw]
    · rw [lookupWorker_update_self, hw]
      rfl
  · intro hw
    simp only [finishUrl, hw]

/-- Witness for C3: the worker at count 5 drops to 4; an unknown endpoint errors. -/
theorem finishUrl_decrements_or_raises_witness :
    (∃ s2, finishUrl poolB "http://w1:8000" = Except.ok s2 ∧
      lookupWorker s2 "http://w1:8000" =
        some { inFlight := 4, consecutiveFailures := 0, isDead := false }) ∧
    finishUrl poolB "http://unknown:8000" = Except.error RouterError.unknownWorker := by
  constructor
  · obtain ⟨s2, h1, h2⟩ := (finishUrl_decrements_or_raises poolB "http://w1:8000").1
      { inFlight := 5, consecutiveFailures := 0, isDead := false } (by rfl)
    refine ⟨s2, h1, ?_⟩
    rw [h2]
    rfl
  · exact (finishUrl_decrements_or_raises poolB "http://unknown:8000").2 (by rfl)

/-- C4: with failure threshold `t ≥ 1`, every failed probe increments the failure
counter by 1; starting from a fresh worker, after `k` consecutive failures the
counter is `k` and the worker is dead exactly when `k` has reached `t` (so after
`t - 1` failures it is still live); a single successful probe resets the counter
to 0 and marks the worker live whatever its prior state. -/
theorem recordProbe_threshold (t : Nat) (ht : 1 ≤ t) :
    (∀ w, (recordProbe t false w).consecutiveFailures = w.consecutiveFailures + 1) ∧
    (∀ k, (failN t k).consecutiveFailures = k ∧ (failN t k).isDead = decide (t ≤ k)) ∧
    (failN t (t - 1)).isDead = false ∧
    (∀ w, (recordProbe t true w).consecutiveFailures = 0 ∧
      (recordProbe t true w).isDead = false) := by
  have hmain : ∀ k, (failN t k).consecutiveFailures = k ∧ (failN t k).isDead = decide (t ≤ k) := by
    intro k
    induction k with
    | zero =>
        constructor
        · rfl
        · have : ¬ t ≤ 0 := by omega
          simp [failN, Worker.fresh, this]
    | succ k ih =>
        constructor
        · simp [failN, recordProbe, ih.1]
        · simp only [failN, recordProbe, if_neg Bool.false_ne_true, ih.1, ih.2]
          by_cases h1 : t ≤ k
          · have h2 : t ≤ k + 1 := by omega
            simp [h1, h2]
          · by_cases h2 : t ≤ k + 1
            · simp [h1, h2]
            · simp [h1, h2]
  refine ⟨fun w => by simp [recordProbe], hmain, ?_, fun w => by simp [recordProbe]⟩
  rw [(hmain (t - 1)).2]
  have : ¬ t ≤ t - 1 := by omega
  simp [this]

/-- Witness for C4 at threshold 2: one failure leaves the worker live with counter
1, a second failure kills it, and a successful probe then resets and revives it. -/
theorem recordProbe_threshold_witness :
    (failN 2 1).consecutiveFailures = 1 ∧ (failN 2 1).isDead = false ∧
    (failN 2 2).isDead = true ∧
    (recordProbe 2 true (failN 2 2)).consecutiveFailures = 0 ∧
    (recordProbe 2 true (failN 2 2)).isDead = false := by
  have h := recordProbe_threshold 2 (by decide)
  exact ⟨(h.2.1 1).1, by decide, by decide, (h.2.2.2 (failN 2 2)).1, (h.2.2.2 (failN 2 2)).2⟩

/-- C5: registering an already-known endpoint is a strict no-op (the registry —
key set and both counters included — is left exactly as it was, so a second
registration changes nothing), while registering an unknown endpoint appends it
with in-flight count 0 and failure count 0. -/
theorem registerWorker_idempotent (s : Registry) (ep : Endpoint) :
    ((lookupWorker s ep).isSome = true → registerWorker s ep = s) ∧
    (lookupWorker s ep = none →
      registerWorker s ep = s ++ [(ep, Worker.fresh)] ∧
      lookupWorker (registerWorker s ep) ep =
        some { inFlight := 0, consecutiveFailures := 0, isDead := false }) ∧
    registerWorker (registerWorker s ep) ep = registerWorker s ep := by
  refine ⟨?_, ?_, ?_⟩
  · intro h
    simp [registerWorker, h]
  · intro h
    constructor
    · simp [registerWorker, h]
    · exact lookupWorker_register_fresh s ep h
  · have h := lookupWorker_register_self_isSome s ep
    show (if (lookupWorker (registerWorker s ep) ep).isSome = true then registerWorker s ep
      else registerWorker s ep ++ [(ep, Worker.fresh)]) = registerWorker s ep
    rw [if_pos h]

/-- Witness for C5: duplicate registration of w1 leaves the pool untouched, and
registering a fresh endpoint in the empty registry adds it with zero counters. -/
theorem registerWorker_idempotent_witness :
    registerWorker poolB "http://w1:8000" = poolB ∧
    (registerWorker [] "http://w9:8000" = [("http://w9:8000", Worker.fresh)] ∧
      lookupWorker (registerWorker [] "http://w9:8000") "http://w9:8000" =
        some { inFlight := 0, consecutiveFailures := 0, isDead := false }) :=
  ⟨(registerWorker_idempotent poolB "http://w1:8000").1 (by rfl),
   (registerWorker_idempotent [] "http://w9:8000").2.1 (by rfl)⟩

/-- C7 counterexample: on the pool with counts 5, 2, 8 and w2 dead, selection does
not return w3 — it returns w1 (the live minimum is 5, not 8) — and w3's count
stays 8 rather than becoming 4. -/
theorem useUrl_excludes_dead_counterexample :
    (useUrl poolC).1 ≠ Except.ok "http://w3:8000" ∧
    (useUrl poolC).1 = Except.ok "http://w1:8000" ∧
    lookupWorker (useUrl poolC).2 "http://w3:8000" =
      some { inFlight := 8, consecutiveFailures := 0, isDead := false } := by
  refine ⟨?_, by rfl, by rfl⟩
  intro hc
  have h1 : (useUrl poolC).1 = Except.ok "http://w1:8000" := rfl
  rw [h1] at hc
  exact absurd (Except.ok.inj hc) (by decide)

/-- C7 amended: on the pool with counts 5, 2, 8 and w2 dead, selection returns
w1 — the lowest-loaded live worker — and increments its count to 6. -/
theorem useUrl_excludes_dead_amended :
    (useUrl poolC).1 = Except.ok "http://w1:8000" ∧
    lookupWorker (useUrl poolC).2 "http://w1:8000" =
      some { inFlight := 6, consecutiveFailures := 0, isDead := false } ∧
    lookupWorker (useUrl poolC).2 "http://w2:8000" =
      some { inFlight := 2, consecutiveFailures := 0, isDead := true } :=
  ⟨rfl, rfl, rfl⟩

/-- C8: `POST /add_worker` with a url in the query or the body answers 200 with
status success and registers the endpoint (with zero counters when it was
unknown); with no url in either place it answers 400 with an error field and
registers nothing. -/
theorem addWorker_endpoint_contract (s : Registry) (q b : Option Endpoint) :
    (∀ u, (q <|> b) = some u →
      (addWorker q b s).1.code = 200 ∧
      (addWorker q b s).1.status = some "success" ∧
      (lookupWorker (addWorker q b s).2 u).isSome = true ∧
      (lookupWorker s u = none →
        lookupWorker (addWorker q b s).2 u =
          some { inFlight := 0, consecutiveFailures := 0, isDead := false })) ∧
    ((q <|> b) = none →
      (addWorker q b s).1.code = 400 ∧
      (addWorker q b s).1.error.isSome = true ∧
      (addWorker q b s).2 = s) := by
  constructor
  · intro u hu
    have ha : addWorker q b s =
        ({ code := 200, status := some "success", error := none }, registerWorker s u) := by
      simp only [addWorker, hu]
    rw [ha]
    exact ⟨rfl, rfl, lookupWorker_register_self_isSome s u,
      fun hnone => lookupWorker_register_fresh s u hnone⟩
  · intro hn
    have ha : addWorker q b s =
        ({ code := 400, status := none, error := some "Missing url parameter" }, s) := by
      simp only [addWorker, hn]
    rw [ha]
    exact ⟨rfl, rfl, rfl⟩

/-- Witness for C8: a url via the query, a url via the body, and the missing-url
client error, all on the empty registry. -/
theorem addWorker_endpoint_contract_witness :
    ((addWorker (some "http://a:1") none []).1.code = 200 ∧
      lookupWorker (addWorker (some "http://a:1") none []).2 "http://a:1" =
        some { inFlight := 0, consecutiveFailures := 0, isDead := false }) ∧
    (addWorker none (some "http://b:2") []).1.status = some "success" ∧
    ((addWorker none none []).1.code = 400 ∧
      (addWorker none none []).1.error.isSome = true ∧
      (addWorker none none []).2 = []) := by
  have h1 := (addWorker_endpoint_contract [] (some "http://a:1") none).1 "http://a:1" rfl
  have h2 := (addWorker_endpoint_contract [] none (some "http://b:2")).1 "http://b:2" rfl
  have h3 := (addWorker_endpoint_contract [] none none).2 rfl
  exact ⟨⟨h1.1, h1.2.2.2 rfl⟩, h2.2.1, h3⟩

/-- C9: after any finite sequence of register/deregister calls starting from the
empty registry, the listing (`GET /list_workers`) has no duplicates and contains
an endpoint exactly when its last relevant call registered it — so nothing is
missing, nothing deregistered or never-registered appears. -/
theorem listWorkers_reflects_admin_history (ops : List AdminOp) (ep : Endpoint) :
    (listWorkers (applyOps ops)).Nodup ∧
    (ep ∈ listWorkers (applyOps ops) ↔ finalStatus ops ep = true) := by
  obtain ⟨h1, h2⟩ := foldl_applyOp_status ops [] (by exact List.nodup_nil)
  refine ⟨h1, ?_⟩
  rw [listWorkers, ← lookupWorker_isSome_iff, applyOps, h2 ep]
  rfl

/-- C10: whenever `_use_url` succeeds, the selected endpoint's in-flight count
rises by exactly 1 and nothing else changes: the key set, every other endpoint's
state, every failure counter and every dead flag stay as they were. -/
theorem useUrl_success_frame (s : Registry) (ep : Endpoint)
    (h : (useUrl s).1 = Except.ok ep) :
    listWorkers (useUrl s).2 = listWorkers s ∧
    (∀ e, e ≠ ep → lookupWorker (useUrl s).2 e = lookupWorker s e) ∧
    (∀ e, (lookupWorker (useUrl s).2 e).map Worker.consecutiveFailures =
      (lookupWorker s e).map Worker.consecutiveFailures) ∧
    (∀ e, (lookupWorker (useUrl s).2 e).map Worker.isDead =
      (lookupWorker s e).map Worker.isDead) ∧
    (lookupWorker (useUrl s).2 ep).map Worker.inFlight =
      (lookupWorker s ep).map (fun w => w.inFlight + 1) := by
  cases hpick : pickMin (liveEntries s) with
  | none =>
      exfalso
      rw [useUrl_eq_of_no_pick s hpick] at h
      exact Except.noConfusion h
  | some p =>
      obtain ⟨e0, w0⟩ := p
      have huse := useUrl_eq_of_pick s e0 w0 hpick
      have hep : e0 = ep := by
        rw [huse] at h
        exact Except.ok.inj h
      subst hep
      rw [huse]
      simp only
      refine ⟨?_, ?_, ?_, ?_, ?_⟩
      · exact keys_updateWorker s e0 _
      · intro e he
        exact lookupWorker_update_other s e0 e _ he
      · intro e
        by_cases he : e = e0
        · subst he
          rw [lookupWorker_update_self]
          cases lookupWorker s e <;> rfl
        · rw [lookupWorker_update_other s e0 e _ he]
      · intro e
        by_cases he : e = e0
        · subst he
          rw [lookupWorker_update_self]
          cases lookupWorker s e <;> rfl
        · rw [lookupWorker_update_other s e0 e _ he]
      · rw [lookupWorker_update_self]
        cases lookupWorker s e0 <;> rfl

/-- Witness for C10 on the pool with counts 5, 2, 8: after selecting w2, w1 is
untouched and w2's dead flag is unchanged while its count rose to 3. -/
theorem useUrl_success_frame_witness :
    lookupWorker (useUrl poolA).2 "http://w1:8000" = lookupWorker poolA "http://w1:8000" ∧
    (lookupWorker (useUrl poolA).2 "http://w2:8000").map Worker.isDead =
      (lookupWorker poolA "http://w2:8000").map Worker.isDead ∧
    (lookupWorker (useUrl poolA).2 "http://w2:8000").map Worker.inFlight =
      (lookupWorker poolA "http://w2:8000").map (fun w => w.inFlight + 1) := by
  have h := useUrl_success_frame poolA "http://w2:8000" (by rfl)
  exact ⟨h.2.1 "http://w1:8000" (by decide), h.2.2.2.1 "http://w2:8000", h.2.2.2.2⟩

end MilesRouter
